import Mathlib

/-!
Verification of the repository data_structures_and_algorithms_with_rust.
The development embeds, in Lean, the error-signaling helpers of
src/hello_rust/src/errors.rs (`find`, `read_file`), the shared-state
concurrency demo of src/hello_rust/src/concurrency_and_mutability.rs
(`shared_state`, modelled as an interleaving transition system with an
explicit mutex), and the abandoned doubly-linked-list sketch
(`Node::append`).
-/

namespace HelloRust

/-! ## errors.rs -/

/-- Loop body of `fn find(needle: u16, haystack: Vec<u16>) -> Option<usize>`
(src/hello_rust/src/errors.rs, lines 12 to 19): walk the haystack together
with the running index `i`, returning `some i` at the first element equal to
the needle, and `none` when the loop finishes without a match.  The `u16`
values are embedded as `Nat`: the function only compares them for equality,
so the machine width plays no role. -/
def findAux (needle : Nat) : List Nat → Nat → Option Nat
  | [], _ => none
  | item :: rest, i => if item = needle then some i else findAux needle rest (i + 1)

/-- Embedding of `fn find` itself: the iteration starts at index `0`. -/
def find (needle : Nat) (haystack : List Nat) : Option Nat :=
  findAux needle haystack 0

/-- The cause carried by a failed read.  It embeds `std::io::Error` exactly as
far as the repository uses it: the error value is only produced by the
environment and inspected or printed, never constructed by repository code. -/
inductive FsError
  | notFound
deriving DecidableEq

/-- Embedding of `fn read_file(path: &str) -> Result<String, io::Error>`
(src/hello_rust/src/errors.rs, lines 21 to 24).  The body delegates to
`fs::read_to_string`, which consults the file system and returns
`Ok(contents)` on success and `Err(cause)` when the path cannot be read; it
does not panic.  The file system is passed explicitly as a map from paths to
optional contents, so the embedding is a total function into `Except`. -/
def read_file (fsys : String → Option String) (path : String) : Except FsError String :=
  match fsys path with
  | some contents => Except.ok contents
  | none => Except.error FsError.notFound

/-! ## concurrency_and_mutability.rs: the shared-state run

`fn shared_state()` (lines 79 to 92) wraps an empty vector in
`Arc::new(Mutex::new(vec![]))`, spawns the tasks `(0..10)` where task `i`
runs `numbers.lock().unwrap()` and pushes `i` while holding the guard, joins
every handle with `unwrap`, and finally prints the contents of the vector.
The concurrency is modelled as a transition system: a state records the
phase of every task, the current owner of the mutex, and the contents of the
shared vector; a step is one atomic action of one task.  The task count is
the parameter `N`; the source program is the instance `N = 10`. -/

/-- Stages a worker task of `shared_state` goes through: spawned but not yet
holding the mutex, holding the mutex right after `numbers.lock().unwrap()`,
having executed `(*vector).push(i)` while still holding the guard, and
finished with the guard dropped. -/
inductive Phase
  | notStarted
  | acquired
  | pushed
  | done
deriving DecidableEq

/-- A snapshot of the run of `shared_state`: the phase of each task, the task
currently owning the mutex (if any), and the contents of the shared vector. -/
structure SState where
  phase : Nat → Phase
  lockOwner : Option Nat
  vec : List Nat

/-- Starting state: the vector `Arc::new(Mutex::new(vec![]))` is empty, the
mutex is free, and no task has run yet. -/
def SState.init : SState :=
  { phase := fun _ => Phase.notStarted, lockOwner := none, vec := [] }

/-- One scheduler step of `shared_state` with `N` spawned tasks.  Task `i`
(with `i < N`, mirroring the spawn loop over `(0..10)`) first acquires the
mutex, which is possible only while no task owns it; then pushes `i` onto the
shared vector while owning it; then releases it when the guard is dropped. -/
inductive Step (N : Nat) : SState → SState → Prop
  | acquire (s : SState) (i : Nat) (hi : i < N) (hp : s.phase i = Phase.notStarted)
      (hl : s.lockOwner = none) :
      Step N s ⟨Function.update s.phase i Phase.acquired, some i, s.vec⟩
  | push (s : SState) (i : Nat) (hp : s.phase i = Phase.acquired)
      (hl : s.lockOwner = some i) :
      Step N s ⟨Function.update s.phase i Phase.pushed, some i, s.vec ++ [i]⟩
  | release (s : SState) (i : Nat) (hp : s.phase i = Phase.pushed)
      (hl : s.lockOwner = some i) :
      Step N s ⟨Function.update s.phase i Phase.done, none, s.vec⟩

/-- The states an execution of `shared_state` with `N` tasks can be in: all
states reachable from `SState.init` by scheduler steps, in any interleaving. -/
abbrev Reachable (N : Nat) (s : SState) : Prop :=
  Relation.ReflTransGen (Step N) SState.init s

/-- Every spawned task has finished: the point reached after the join loop
`for handle in handlers { handle.join().unwrap(); }` succeeds. -/
def AllDone (N : Nat) (s : SState) : Prop :=
  ∀ i, i < N → s.phase i = Phase.done

/-- Inductive invariant of the run: the mutex owner is a spawned task inside
its critical section and is the only task in a critical section; the shared
vector holds, without repetition, exactly the indices of the spawned tasks
that have already pushed; and indices outside `[0, N)` never run. -/
structure Inv (N : Nat) (s : SState) : Prop where
  owner_holds : ∀ i, s.lockOwner = some i →
    i < N ∧ (s.phase i = Phase.acquired ∨ s.phase i = Phase.pushed)
  holds_owner : ∀ i, (s.phase i = Phase.acquired ∨ s.phase i = Phase.pushed) →
    s.lockOwner = some i
  vec_nodup : s.vec.Nodup
  vec_mem : ∀ x, x ∈ s.vec ↔ x < N ∧ (s.phase x = Phase.pushed ∨ s.phase x = Phase.done)
  outside : ∀ i, ¬ i < N → s.phase i = Phase.notStarted

/-! ## concurrency_and_mutability.rs: join loop and final read -/

/-- Outcome of one worker thread as seen by `join()`: `Ok` when the thread ran
to completion, `Err` when it terminated abnormally (panicked), for instance
because `lock().unwrap()` hit a poisoned mutex. -/
inductive TaskResult
  | ok
  | failed
deriving DecidableEq

/-- Embedding of the join loop `for handle in handlers { handle.join().unwrap(); }`
(lines 88 to 90): the handles are joined one after the other, and the first
`Err` makes `unwrap` panic, aborting the whole run with no recovery. -/
def joinAll : List TaskResult → Except String Unit
  | [] => Except.ok ()
  | TaskResult.ok :: rest => joinAll rest
  | TaskResult.failed :: _ => Except.error "join returned Err and unwrap panicked"

/-- Embedding of the tail of `shared_state` (lines 88 to 91): join every
handle, and only when every join succeeded read the final contents of the
shared vector (the `println!` line runs `v.lock().unwrap()` after the loop).
A failed join aborts before the read; there is no retry and no result. -/
def joinThenRead (results : List TaskResult) (finalVec : List Nat) :
    Except String (List Nat) :=
  match joinAll results with
  | Except.ok _ => Except.ok finalVec
  | Except.error e => Except.error e

/-! ## concurrency_and_mutability.rs: observable outcome of `shared_state` -/

/-- What one call of `fn shared_state()` produces: `printed` is the vector
shown by `println!("shared state: {:?}", ...)`, and `retVal` is the value the
function hands back to its caller.  The Rust function is declared
`fn shared_state()` with the unit return type, so no sequence is returned:
`retVal` is `none`.  (`some v` would model a function returning vector `v`.) -/
structure RunOutcome where
  printed : List Nat
  retVal : Option (List Nat)

/-- The contents of the shared vector after a complete run whose mutex
acquisitions happened in the order `sched`: each task appends its own index
under the lock, so the vector receives exactly the indices in acquisition
order. -/
def execSchedule (sched : List Nat) : List Nat :=
  sched.foldl (fun v i => v ++ [i]) []

/-- A complete, successful execution of `fn shared_state()` (lines 79 to 92),
resolved by the order `sched` in which the ten tasks acquired the mutex: the
final vector is printed, and the function returns unit, not the vector. -/
def shared_state_run (sched : List Nat) : RunOutcome :=
  { printed := execSchedule sched, retVal := none }

/-! ## concurrency_and_mutability.rs: the abandoned linked-list sketch -/

/-- Embedding of `type Link = Option<Rc<RefCell<Node>>>` (line 138): a link is
an optional shared reference, modelled as an optional address into a heap of
cells. -/
def Link : Type := Option Nat

/-- Embedding of `struct Node` (lines 131 to 136): a value and two optional
links. -/
structure Node where
  value : String
  next : Link
  prev : Link

/-- Embedding of `Node::append` (lines 140 to 149).  The body allocates
`let new = Rc::new(RefCell::new(value))`, a fresh cell holding the argument
string, and everything else is commented out, so the receiver is left
untouched and the fresh cell is never linked to anything.  The result records
the (unchanged) receiver and the contents of the fresh allocation. -/
def Node.append (self : Node) (value : String) : Node × String :=
  (self, value)

/-! ## Invariant proofs for the shared-state run -/

theorem inv_init (N : Nat) : Inv N SState.init := by
  constructor
  · intro i h
    simp [SState.init] at h
  · intro i h
    rcases h with h | h <;> simp [SState.init] at h
  · simp [SState.init]
  · intro x
    simp [SState.init]
  · intro i _
    rfl

theorem inv_step {N : Nat} {s t : SState} (hs : Inv N s) (hstep : Step N s t) :
    Inv N t := by
  cases hstep with
  | acquire i hi hp hl =>
    refine ⟨?_, ?_, ?_, ?_, ?_⟩ <;> dsimp only
    · intro j hj
      cases hj
      exact ⟨hi, Or.inl (Function.update_same i Phase.acquired s.phase)⟩
    · intro j hj
      by_cases hji : j = i
      · subst hji
        rfl
      · rw [Function.update_noteq hji] at hj
        have hcontra := hs.holds_owner j hj
        rw [hl] at hcontra
        cases hcontra
    · exact hs.vec_nodup
    · intro x
      by_cases hx : x = i
      · subst hx
        rw [Function.update_same]
        constructor
        · intro hxm
          have hph := ((hs.vec_mem x).mp hxm).2
          rw [hp] at hph
          rcases hph with h | h <;> cases h
        · intro hxm
          rcases hxm with ⟨_, hor⟩
          rcases hor with h | h <;> cases h
      · rw [Function.update_noteq hx]
        exact hs.vec_mem x
    · intro j hj
      have hji : j ≠ i := fun h => hj (h ▸ hi)
      rw [Function.update_noteq hji]
      exact hs.outside j hj
  | push i hp hl =>
    have hiN : i < N := (hs.owner_holds i hl).1
    have hnotmem : i ∉ s.vec := by
      intro him
      have hph := ((hs.vec_mem i).mp him).2
      rw [hp] at hph
      rcases hph with h | h <;> cases h
    refine ⟨?_, ?_, ?_, ?_, ?_⟩ <;> dsimp only
    · intro j hj
      cases hj
      exact ⟨hiN, Or.inr (Function.update_same i Phase.pushed s.phase)⟩
    · intro j hj
      by_cases hji : j = i
      · subst hji
        rfl
      · rw [Function.update_noteq hji] at hj
        have hcontra := hs.holds_owner j hj
        rw [hl] at hcontra
        cases hcontra
        exact absurd rfl hji
    · refine List.nodup_append.mpr ⟨hs.vec_nodup, List.nodup_singleton i, ?_⟩
      intro a ha hb
      rw [List.mem_singleton] at hb
      subst hb
      exact hnotmem ha
    · intro x
      rw [List.mem_append, List.mem_singleton]
      by_cases hx : x = i
      · subst hx
        rw [Function.update_same]
        constructor
        · intro _
          exact ⟨hiN, Or.inl rfl⟩
        · intro _
          exact Or.inr rfl
      · rw [Function.update_noteq hx]
        constructor
        · intro hor
          rcases hor with hm | he
          · exact (hs.vec_mem x).mp hm
          · exact absurd he hx
        · intro hr
          exact Or.inl ((hs.vec_mem x).mpr hr)
    · intro j hj
      have hji : j ≠ i := fun h => hj (h ▸ hiN)
      rw [Function.update_noteq hji]
      exact hs.outside j hj
  | release i hp hl =>
    have hiN : i < N := (hs.owner_holds i hl).1
    refine ⟨?_, ?_, ?_, ?_, ?_⟩ <;> dsimp only
    · intro j hj
      cases hj
    · intro j hj
      by_cases hji : j = i
      · subst hji
        rw [Function.update_same] at hj
        rcases hj with h | h <;> cases h
      · rw [Function.update_noteq hji] at hj
        have hcontra := hs.holds_owner j hj
        rw [hl] at hcontra
        cases hcontra
        exact absurd rfl hji
    · exact hs.vec_nodup
    · intro x
      by_cases hx : x = i
      · subst hx
        rw [Function.update_same]
        constructor
        · intro _
          exact ⟨hiN, Or.inr rfl⟩
        · intro _
          exact (hs.vec_mem x).mpr ⟨hiN, Or.inl hp⟩
      · rw [Function.update_noteq hx]
        exact hs.vec_mem x
    · intro j hj
      have hji : j ≠ i := fun h => hj (h ▸ hiN)
      rw [Function.update_noteq hji]
      exact hs.outside j hj

theorem reachable_inv {N : Nat} {s : SState} (h : Reachable N s) : Inv N s := by
  induction h with
  | refl => exact inv_init N
  | tail _ hstep ih => exact inv_step ih hstep

/-! ## A concrete one-task execution, used to instantiate the theorems -/

/-- State after task 0 acquires the mutex in a one-task run. -/
def demoS1 : SState :=
  ⟨Function.update SState.init.phase 0 Phase.acquired, some 0, SState.init.vec⟩

/-- State after task 0 pushes its index while owning the mutex. -/
def demoS2 : SState :=
  ⟨Function.update demoS1.phase 0 Phase.pushed, some 0, demoS1.vec ++ [0]⟩

/-- State after task 0 drops the guard: the one-task run is complete. -/
def demoS3 : SState :=
  ⟨Function.update demoS2.phase 0 Phase.done, none, demoS2.vec⟩

theorem demoS1_reachable : Reachable 1 demoS1 :=
  Relation.ReflTransGen.tail Relation.ReflTransGen.refl
    (Step.acquire SState.init 0 (by decide) rfl rfl)

theorem demoS3_reachable : Reachable 1 demoS3 :=
  Relation.ReflTransGen.tail
    (Relation.ReflTransGen.tail demoS1_reachable (Step.push demoS1 0 rfl rfl))
    (Step.release demoS2 0 rfl rfl)

theorem demoS3_all_done : AllDone 1 demoS3 := by
  intro i hi
  have h0 : i = 0 := Nat.lt_one_iff.mp hi
  subst h0
  rfl

/-! ## Claim theorems about the shared-state run -/

/-- C1: for every N, once every one of the N worker tasks of the
shared-state run has completed, the shared vector is a permutation of
`[0, N)`: it has length exactly N and contains each integer below N exactly
once, with no duplicates and no omissions, in whatever order the
interleaving produced.  (The source program instantiates N = 10.) -/
theorem shared_state_final_perm (N : Nat) (s : SState) (hr : Reachable N s)
    (hd : AllDone N s) :
    s.vec.Perm (List.range N) ∧ s.vec.length = N ∧
      ∀ k, k < N → s.vec.count k = 1 := by
  have hinv := reachable_inv hr
  have hmem : ∀ x, x ∈ s.vec ↔ x ∈ List.range N := by
    intro x
    rw [List.mem_range]
    constructor
    · intro hx
      exact ((hinv.vec_mem x).mp hx).1
    · intro hx
      exact (hinv.vec_mem x).mpr ⟨hx, Or.inr (hd x hx)⟩
  have hperm : s.vec.Perm (List.range N) :=
    (hinv.vec_nodup.subperm fun x hx => (hmem x).mp hx).antisymm
      ((List.nodup_range N).subperm fun x hx => (hmem x).mpr hx)
  refine ⟨hperm, ?_, ?_⟩
  · rw [hperm.length_eq, List.length_range]
  · intro k hk
    rw [hperm.count_eq k]
    exact List.count_eq_one_of_mem (List.nodup_range N) (List.mem_range.mpr hk)

/-- Witness for C1: the complete one-task run ends with vector `[0]`, a
permutation of `[0, 1)`. -/
theorem shared_state_final_perm_witness :
    demoS3.vec.Perm (List.range 1) ∧ demoS3.vec.length = 1 ∧
      ∀ k, k < 1 → demoS3.vec.count k = 1 :=
  shared_state_final_perm 1 demoS3 demoS3_reachable demoS3_all_done

/-- C8: in every state any interleaving of the run can reach, at most one
task is inside its critical section (holding the mutex), and the only step
that changes the shared vector is the push a lock-owning task performs while
in its critical section — no unsynchronized access to the vector exists. -/
theorem shared_state_mutex_safety (N : Nat) (s : SState) (hr : Reachable N s) :
    (∀ i j, (s.phase i = Phase.acquired ∨ s.phase i = Phase.pushed) →
        (s.phase j = Phase.acquired ∨ s.phase j = Phase.pushed) → i = j) ∧
    (∀ t, Step N s t → t.vec ≠ s.vec →
        ∃ k, s.lockOwner = some k ∧ t.vec = s.vec ++ [k] ∧
          s.phase k = Phase.acquired) := by
  have hinv := reachable_inv hr
  constructor
  · intro i j hi hj
    have hoi := hinv.holds_owner i hi
    have hoj := hinv.holds_owner j hj
    rw [hoi] at hoj
    cases hoj
    rfl
  · intro t hstep hvec
    cases hstep with
    | acquire i hi hp hl => exact absurd rfl hvec
    | push i hp hl => exact ⟨i, hl, rfl, hp⟩
    | release i hp hl => exact absurd rfl hvec

/-- Witness for C8: the conclusion instantiated at the reachable one-task
state in which task 0 owns the mutex. -/
theorem shared_state_mutex_safety_witness :
    (∀ i j, (demoS1.phase i = Phase.acquired ∨ demoS1.phase i = Phase.pushed) →
        (demoS1.phase j = Phase.acquired ∨ demoS1.phase j = Phase.pushed) → i = j) ∧
    (∀ t, Step 1 demoS1 t → t.vec ≠ demoS1.vec →
        ∃ k, demoS1.lockOwner = some k ∧ t.vec = demoS1.vec ++ [k] ∧
          demoS1.phase k = Phase.acquired) :=
  shared_state_mutex_safety 1 demoS1 demoS1_reachable

/-! ## Claim theorems about the join loop and the observable outcome -/

theorem joinAll_ok_iff (results : List TaskResult) :
    joinAll results = Except.ok () ↔ ∀ r ∈ results, r = TaskResult.ok := by
  induction results with
  | nil => simp [joinAll]
  | cons r rest ih =>
    cases r with
    | ok =>
      rw [show joinAll (TaskResult.ok :: rest) = joinAll rest from rfl, ih]
      simp
    | failed =>
      constructor
      · intro h
        cases h
      · intro h
        have hcontra := h TaskResult.failed (List.mem_cons_self TaskResult.failed rest)
        cases hcontra

theorem joinAll_ok_or_error (results : List TaskResult) :
    joinAll results = Except.ok () ∨ ∃ e, joinAll results = Except.error e := by
  cases hv : joinAll results with
  | ok u =>
    cases u
    exact Or.inl rfl
  | error e => exact Or.inr ⟨e, rfl⟩

/-- C4: the final state is read only after every one of the spawned tasks
has been joined successfully — the read yields the shared vector exactly when
all joins returned Ok — and a single failed task (abnormal termination or a
poisoned lock surfacing at `join()`) is fatal to the whole run: the run ends
in an error, no partial result is produced, and nothing is retried. -/
theorem shared_state_join_fatal (results : List TaskResult) (finalVec : List Nat) :
    (joinThenRead results finalVec = Except.ok finalVec ↔
        ∀ r ∈ results, r = TaskResult.ok) ∧
    ((∃ r ∈ results, r = TaskResult.failed) →
        ∃ e, joinThenRead results finalVec = Except.error e ∧
          ∀ out, joinThenRead results finalVec ≠ Except.ok out) := by
  constructor
  · rcases joinAll_ok_or_error results with hok | ⟨e, herr⟩
    · rw [joinThenRead, hok]
      simp only [true_iff]
      exact (joinAll_ok_iff results).mp hok
    · rw [joinThenRead, herr]
      constructor
      · intro h
        cases h
      · intro hall
        have hok := (joinAll_ok_iff results).mpr hall
        rw [hok] at herr
        cases herr
  · intro hfail
    rcases hfail with ⟨r, hr, hrf⟩
    have hnotall : ¬ ∀ x ∈ results, x = TaskResult.ok := by
      intro hall
      have h := hall r hr
      rw [hrf] at h
      cases h
    rcases joinAll_ok_or_error results with hok | ⟨e, herr⟩
    · exact absurd ((joinAll_ok_iff results).mp hok) hnotall
    · refine ⟨e, ?_, ?_⟩
      · rw [joinThenRead, herr]
      · intro out
        rw [joinThenRead, herr]
        intro h
        cases h

theorem foldl_snoc_eq (sched acc : List Nat) :
    sched.foldl (fun v i => v ++ [i]) acc = acc ++ sched := by
  induction sched generalizing acc with
  | nil => simp
  | cons x xs ih => simp [List.foldl, ih]

theorem execSchedule_eq (sched : List Nat) : execSchedule sched = sched := by
  simp [execSchedule, foldl_snoc_eq]

/-- C5 counterexample: in the execution of `shared_state` whose mutex
acquisitions happen in the order 0, 1, ..., 9, the final contents of the
container are printed, but the value handed back to the caller is the unit
value (modelled as `none`), not the sequence: the function signature is
`fn shared_state()`, so the claim that the sequence is returned as the
result value fails. -/
theorem shared_state_return_cex :
    (shared_state_run (List.range 10)).printed = List.range 10 ∧
    (shared_state_run (List.range 10)).retVal = none ∧
    (shared_state_run (List.range 10)).retVal ≠
      some ((shared_state_run (List.range 10)).printed) := by
  refine ⟨execSchedule_eq (List.range 10), rfl, ?_⟩
  intro h
  cases h

/-- C5 amended: every complete run of `shared_state` prints the final
contents of the shared container — a permutation of `[0, 10)` — to the
console, and returns unit to its caller; the sequence itself is not
returned. -/
theorem shared_state_prints_returns_unit (sched : List Nat)
    (h : sched.Perm (List.range 10)) :
    (shared_state_run sched).printed.Perm (List.range 10) ∧
    (shared_state_run sched).retVal = none := by
  constructor
  · rw [show (shared_state_run sched).printed = execSchedule sched from rfl,
      execSchedule_eq]
    exact h
  · rfl

/-- Witness for the amended C5, at the in-order schedule. -/
theorem shared_state_prints_returns_unit_witness :
    (shared_state_run (List.range 10)).printed.Perm (List.range 10) ∧
    (shared_state_run (List.range 10)).retVal = none :=
  shared_state_prints_returns_unit (List.range 10) (List.Perm.refl (List.range 10))

/-- C6 counterexample: `fn shared_state()` takes no parameter and its task
count is fixed at 10 by the spawn loop `(0..10)`, so the run with the
in-order schedule yields a sequence of length 10 — never the empty sequence
the claim promises for `run(0)`. -/
theorem shared_state_never_empty_cex :
    (shared_state_run (List.range 10)).printed.length = 10 ∧
    (shared_state_run (List.range 10)).printed ≠ ([] : List Nat) := by
  constructor
  · show (execSchedule (List.range 10)).length = 10
    rw [execSchedule_eq (List.range 10)]
    exact List.length_range 10
  · show execSchedule (List.range 10) ≠ ([] : List Nat)
    rw [execSchedule_eq (List.range 10)]
    decide

/-- C6 amended: the operation takes no task-count parameter; the number of
tasks is fixed at 10, so every complete run produces a sequence of length
exactly 10 and in particular never the empty sequence (there is no
`run(0)` path in the program). -/
theorem shared_state_fixed_ten_tasks (sched : List Nat)
    (h : sched.Perm (List.range 10)) :
    (shared_state_run sched).printed.length = 10 ∧
    (shared_state_run sched).printed ≠ ([] : List Nat) := by
  have hlen : (shared_state_run sched).printed.length = 10 := by
    rw [show (shared_state_run sched).printed = execSchedule sched from rfl,
      execSchedule_eq, h.length_eq, List.length_range]
  refine ⟨hlen, ?_⟩
  intro hempty
  rw [hempty] at hlen
  simp at hlen

/-- Witness for the amended C6, at the in-order schedule. -/
theorem shared_state_fixed_ten_tasks_witness :
    (shared_state_run (List.range 10)).printed.length = 10 ∧
    (shared_state_run (List.range 10)).printed ≠ ([] : List Nat) :=
  shared_state_fixed_ten_tasks (List.range 10) (List.Perm.refl (List.range 10))

/-! ## Claim theorems about errors.rs -/

/-- C2: searching for `2` in the list `[1, 3, 4, 5]` yields `none` (the
explicit no-value result), and searching for `3` in the same list yields
`some 1`, found at index 1. -/
theorem find_test_values :
    find 2 [1, 3, 4, 5] = none ∧ find 3 [1, 3, 4, 5] = some 1 := by
  decide

theorem findAux_none_iff (needle : Nat) :
    ∀ (l : List Nat) (k : Nat), findAux needle l k = none ↔ needle ∉ l := by
  intro l
  induction l with
  | nil =>
    intro k
    simp [findAux]
  | cons x xs ih =>
    intro k
    by_cases hx : x = needle
    · subst hx
      simp [findAux]
    · have hne : needle ≠ x := fun h => hx h.symm
      rw [show findAux needle (x :: xs) k = findAux needle xs (k + 1) from by
        simp [findAux, hx]]
      rw [ih (k + 1)]
      simp [List.mem_cons, hne]

/-- C7: `find` signals the absence of the searched value as the explicit
no-value result `none` — by its type it can yield nothing else on a miss,
never an error — and it yields `none` exactly when the needle occurs nowhere
in the haystack. -/
theorem find_none_iff_not_mem (needle : Nat) (haystack : List Nat) :
    find needle haystack = none ↔ needle ∉ haystack :=
  findAux_none_iff needle haystack 0

theorem findAux_shift (needle : Nat) :
    ∀ (l : List Nat) (k : Nat),
      findAux needle l (k + 1) = Option.map (fun m => m + 1) (findAux needle l k) := by
  intro l
  induction l with
  | nil =>
    intro k
    rfl
  | cons x xs ih =>
    intro k
    by_cases hx : x = needle
    · simp [findAux, hx]
    · rw [show findAux needle (x :: xs) (k + 1) = findAux needle xs (k + 2) from by
        simp [findAux, hx]]
      rw [show findAux needle (x :: xs) k = findAux needle xs (k + 1) from by
        simp [findAux, hx]]
      exact ih (k + 1)

/-- C9: when the needle occurs in the haystack (possibly several times),
`find` returns `some i` for the smallest index `i` whose element equals the
needle: the element at `i` is the needle, and every earlier index holds a
different value. -/
theorem find_first_occurrence (needle : Nat) (haystack : List Nat)
    (h : needle ∈ haystack) :
    ∃ i, find needle haystack = some i ∧ haystack[i]? = some needle ∧
      ∀ j, j < i → haystack[j]? ≠ some needle := by
  induction haystack with
  | nil => cases h
  | cons x xs ih =>
    by_cases hx : x = needle
    · refine ⟨0, ?_, ?_, ?_⟩
      · simp [find, findAux, hx]
      · rw [List.getElem?_cons_zero, hx]
      · intro j hj
        exact absurd hj (Nat.not_lt_zero j)
    · have hmem : needle ∈ xs := by
        rcases List.mem_cons.mp h with h1 | h2
        · exact absurd h1.symm hx
        · exact h2
      rcases ih hmem with ⟨i, hfind, hget, hmin⟩
      refine ⟨i + 1, ?_, ?_, ?_⟩
      · show findAux needle (x :: xs) 0 = some (i + 1)
        rw [show findAux needle (x :: xs) 0 = findAux needle xs 1 from by
          simp [findAux, hx]]
        rw [show (1 : Nat) = 0 + 1 from rfl, findAux_shift needle xs 0]
        rw [show findAux needle xs 0 = find needle xs from rfl, hfind]
        rfl
      · rw [List.getElem?_cons_succ]
        exact hget
      · intro j hj
        cases j with
        | zero =>
          rw [List.getElem?_cons_zero]
          intro heq
          cases heq
          exact hx rfl
        | succ j0 =>
          rw [List.getElem?_cons_succ]
          exact hmin j0 (Nat.lt_of_succ_lt_succ hj)

/-- Witness for C9: searching for `3` in `[1, 3, 4, 5]` finds the first
occurrence. -/
theorem find_first_occurrence_witness :
    ∃ i, find 3 [1, 3, 4, 5] = some i ∧ [1, 3, 4, 5][i]? = some 3 ∧
      ∀ j, j < i → [1, 3, 4, 5][j]? ≠ some 3 :=
  find_first_occurrence 3 [1, 3, 4, 5] (by decide)

/-- C3: reading a path the file system does not hold yields the explicit
failure result `Except.error` carrying a cause, and `read_file` is a total
function — on every file system and path it yields either an `ok` contents or
an `error` cause, never a crash. -/
theorem read_file_missing_is_error (fsys : String → Option String) (path : String) :
    (fsys path = none → read_file fsys path = Except.error FsError.notFound) ∧
    ((∃ c, read_file fsys path = Except.ok c) ∨
      (∃ e, read_file fsys path = Except.error e)) := by
  constructor
  · intro h
    rw [read_file, h]
  · match hfp : fsys path with
    | some c =>
      refine Or.inl ⟨c, ?_⟩
      rw [read_file, hfp]
    | none =>
      refine Or.inr ⟨FsError.notFound, ?_⟩
      rw [read_file, hfp]

/-! ## Claim theorem about the linked-list sketch -/

/-- C10: `Node::append` has no observable effect on the receiver: for every
node and every input string, the fields `value`, `next` and `prev` are left
unchanged (the whole receiver is unchanged), and the only thing the body does
is allocate a fresh, never-linked cell holding the input string. -/
theorem node_append_no_effect (n : Node) (v : String) :
    (Node.append n v).1.value = n.value ∧ (Node.append n v).1.next = n.next ∧
      (Node.append n v).1.prev = n.prev ∧ (Node.append n v).1 = n ∧
      (Node.append n v).2 = v :=
  ⟨rfl, rfl, rfl, rfl, rfl⟩

end HelloRust
